import Mathlib

/-!
Shallow embedding of the Nestera authentication core and its collaborators.

Components embedded from the TypeScript source:
* `RolesGuard.canActivate` (src/backend/src/.../roles.guard.ts)
* `AuthService.register` / `login` / `validateUser` / `generateToken`
  (src/unnamed/part_000)
* `RegisterDto` / `LoginDto` validation rules (src/unnamed/part_001)
* `StellarService.getRecentTransactions` (src/unnamed/part_002)
* the webhook signature check (modelled from the spec; only its e2e test is
  in the repository excerpt)

External collaborators (bcrypt, the JWT library, the Horizon client, the
user store) are passed in as explicit function parameters, mirroring
dependency injection in the source.
-/

namespace Nestera

/-- Role enumeration (roles.enum.ts): exactly USER and ADMIN. -/
inductive Role
  | USER
  | ADMIN
deriving DecidableEq, Repr

/-- Printed form of a role, as interpolated into the guard message. -/
def Role.asString : Role → String
  | .USER => "USER"
  | .ADMIN => "ADMIN"

/-- The `user` object the auth layer attaches to a request; the guard only
reads its `role`. -/
structure ReqUser where
  role : Role
deriving DecidableEq, Repr

/-- `ForbiddenException` with its message. -/
structure ForbiddenException where
  message : String
deriving DecidableEq, Repr

/-- Joined role list, as `requiredRoles.join(', ')` in the source. -/
def joinRoles (roles : List Role) : String :=
  String.intercalate ", " (roles.map Role.asString)

/-- `RolesGuard.canActivate` (roles.guard.ts lines 15-43).
`requiredRoles` is the metadata produced by `reflector.getAllAndOverride`:
`none` when no `@Roles()` decorator is present, otherwise the declared list.
`user` is the identity attached to the request, if any.  Throwing
`ForbiddenException` is embedded as `Except.error`. -/
def canActivate (requiredRoles : Option (List Role)) (user : Option ReqUser) :
    Except ForbiddenException Bool :=
  match requiredRoles with
  | none => .ok true
  | some rs =>
    if rs.length = 0 then .ok true
    else
      match user with
      | none => .error ⟨"No authenticated user found on request."⟩
      | some u =>
        if rs.any (fun r => u.role = r) then .ok true
        else
          .error ⟨"Access denied. Required role(s): " ++ joinRoles rs ++
            ". Your role: " ++ u.role.asString ++ "."⟩

/-- The condition under which the guard allows, read off the source:
roles metadata absent or empty, or an attached user whose role is among
the required ones. -/
def allowCond (requiredRoles : Option (List Role)) (user : Option ReqUser) : Prop :=
  requiredRoles = none ∨ requiredRoles = some [] ∨
    ∃ rs u, requiredRoles = some rs ∧ user = some u ∧ u.role ∈ rs

/-- A stored user record: the Credential Record of the spec.  `password`
holds the stored bcrypt hash; it is `Option` because the source guards
`user.password` before comparing. -/
structure UserRecord where
  id : String
  email : String
  password : Option String
  name : Option String
  role : Role
deriving DecidableEq, Repr

/-- The user store contents, in insertion order. -/
abbrev Store := List UserRecord

/-- Modelled from the spec: `UserService.findByEmail` is not in the source
excerpt; the spec fixes it as an exact-match lookup by email with no
normalization. -/
def findByEmail (store : Store) (email : String) : Option UserRecord :=
  store.find? (fun u => u.email = email)

/-- Modelled from the spec: `UserService.create` is not in the source
excerpt; the spec fixes it as the store adapter's user-creation capability,
which persists email, stored hash and name, defaults the role to USER,
assigns a fresh opaque id, and yields the created record. -/
def createUser (store : Store) (email : String) (hashedPassword : String)
    (name : Option String) : UserRecord × Store :=
  let u : UserRecord :=
    { id := "u" ++ toString store.length
      email := email
      password := some hashedPassword
      name := name
      role := .USER }
  (u, store ++ [u])

/-- Registration input (auth.dto.ts `RegisterDto`), after parsing. -/
structure RegisterDto where
  email : String
  password : String
  name : Option String
deriving DecidableEq, Repr

/-- Login input (auth.dto.ts `LoginDto`). -/
structure LoginDto where
  email : String
  password : String
deriving DecidableEq, Repr

/-- The exceptions `AuthService` throws: `ConflictException` and
`UnauthorizedException`, each with its message. -/
inductive AuthError
  | conflict (message : String)
  | unauthorized (message : String)
deriving DecidableEq, Repr

/-- What `register` returns on success: the record handed back by
`userService.create` — the full record, nothing stripped — plus the
access token. -/
structure RegisterResult where
  user : UserRecord
  accessToken : String
deriving DecidableEq, Repr

/-- What `login` returns on success. -/
structure LoginResult where
  accessToken : String
deriving DecidableEq, Repr

/-- The identity `validateUser` returns: the user record after
destructuring away the `password` field. -/
structure Identity where
  id : String
  email : String
  name : Option String
  role : Role
deriving DecidableEq, Repr

/-- The destructuring of `user` in `validateUser` that discards the
`password` field: every field of the record except the stored hash. -/
def stripPassword (u : UserRecord) : Identity :=
  { id := u.id, email := u.email, name := u.name, role := u.role }

/-- The cost factor literally passed to `bcrypt.hash` in
`AuthService.register` (part_000 line 24): the constant 10. -/
def registerBcryptCost : Nat := 10

/-- `AuthService.register` (part_000 lines 18-34).  `bcryptHash` stands for
`bcrypt.hash` (plaintext, cost rounds) and `signToken` for
`jwtService.sign` applied to the sub/email claims; both are injected
collaborators.  A thrown exception is `Except.error`; the store is threaded
explicitly and returned unchanged when the exception fires before
`userService.create`. -/
def register (bcryptHash : String → Nat → String)
    (signToken : String → String → String)
    (store : Store) (dto : RegisterDto) :
    Except AuthError RegisterResult × Store :=
  match findByEmail store dto.email with
  | some _ => (.error (.conflict "User already exists"), store)
  | none =>
    let hashedPassword := bcryptHash dto.password registerBcryptCost
    let (user, store1) := createUser store dto.email hashedPassword dto.name
    ((.ok { user := user, accessToken := signToken user.id user.email }), store1)

/-- JavaScript truthiness of the optional stored hash, as tested by
`user && user.password && ...`: present and a non-empty string. -/
def hashTruthy : Option String → Bool
  | none => false
  | some h => h ≠ ""

/-- `AuthService.validateUser` (part_000 lines 47-54).  `bcryptCompare`
stands for `bcrypt.compare (plaintext, hash)`. -/
def validateUser (bcryptCompare : String → String → Bool)
    (store : Store) (email pass : String) : Option Identity :=
  match findByEmail store email with
  | none => none
  | some u =>
    if hashTruthy u.password ∧ bcryptCompare pass (u.password.getD "") then
      some (stripPassword u)
    else
      none

/-- `AuthService.login` (part_000 lines 36-45). -/
def login (bcryptCompare : String → String → Bool)
    (signToken : String → String → String)
    (store : Store) (dto : LoginDto) : Except AuthError LoginResult :=
  match validateUser bcryptCompare store dto.email dto.password with
  | none => .error (.unauthorized "Invalid credentials")
  | some u => .ok { accessToken := signToken u.id u.email }

/-- The fixed success acknowledgment body of the webhook endpoint. -/
structure WebhookAck where
  status : String
deriving DecidableEq, Repr

/-- Outcome of a webhook POST: HTTP 200 with the acknowledgment body, or
an unauthorized rejection. -/
inductive WebhookResponse
  | accepted (ack : WebhookAck)
  | unauthorized (message : String)
deriving DecidableEq, Repr

/-- HTTP status code of a webhook outcome. -/
def WebhookResponse.statusCode : WebhookResponse → Nat
  | .accepted _ => 200
  | .unauthorized _ => 401

/-- Modelled from the spec: the webhook controller and signature verifier
are not in the source excerpt (only the e2e test webhooks.e2e-spec.ts is).
The spec fixes the algorithm: read the signature from the designated
header; absent header fails unauthorized (missing signature); otherwise
compare it to the hex HMAC-SHA256 of the exact raw body under the webhook
secret, rejecting unauthorized (invalid signature) on mismatch and
answering 200 with the fixed acknowledgment on match.  `hmacSha256Hex`
stands for the HMAC primitive (secret, message). -/
def handleStellarWebhook (hmacSha256Hex : String → String → String)
    (secret rawBody : String) (signatureHeader : Option String) : WebhookResponse :=
  match signatureHeader with
  | none => .unauthorized "missing signature"
  | some sig =>
    if sig = hmacSha256Hex secret rawBody then .accepted { status := "success" }
    else .unauthorized "invalid signature"

/-- The validation rules declared on `RegisterDto` (auth.dto.ts lines 3-14):
`@IsEmail` on email, `@IsString @MinLength(8) @MaxLength(32)` on password,
`@IsString` on name (no `@IsOptional`, so an absent name fails the string
check).  `isEmail` stands for the class-validator email predicate.
Lengths count characters. -/
def validRegisterInput (isEmail : String → Bool) (email password : String)
    (name : Option String) : Bool :=
  isEmail email && decide (8 ≤ password.length) && decide (password.length ≤ 32)
    && name.isSome

/-- Outcome of a POST to the registration endpoint. -/
inductive RegisterHttpOutcome
  | validationFailed
  | serviceError (e : AuthError)
  | success (r : RegisterResult)
deriving DecidableEq, Repr

/-- Modelled from the spec: the controller and global validation pipe are
not in the source excerpt; per the framework contract the DTO validation
of `RegisterDto` runs first and rejects the request before
`AuthService.register` is invoked. -/
def registerEndpoint (isEmail : String → Bool)
    (bcryptHash : String → Nat → String)
    (signToken : String → String → String)
    (store : Store) (email password : String) (name : Option String) :
    RegisterHttpOutcome × Store :=
  if validRegisterInput isEmail email password name then
    match register bcryptHash signToken store ⟨email, password, name⟩ with
    | (.error e, s) => (.serviceError e, s)
    | (.ok r, s) => (.success r, s)
  else
    (.validationFailed, store)

/-- JavaScript truthiness of an optional string field: present and
non-empty. -/
def strTruthy : Option String → Bool
  | none => false
  | some s => s ≠ ""

/-- The fields of a Horizon operation record that
`StellarService.getRecentTransactions` inspects (part_002 lines 155-177).
`assetIsAsset` models the `instanceof Asset` test on the `asset` field. -/
structure TxOp where
  amount : Option String
  asset_type : Option String
  assetIsAsset : Bool
  asset_code : Option String
  buying_asset_code : Option String
  selling_asset_code : Option String
deriving DecidableEq, Repr

/-- A Horizon transaction record as consumed by the source: `created_at`,
`hash`, and its `operations()` call, which either yields the operation
records or throws. -/
structure TxRecord where
  created_at : String
  hash : String
  operations : Except String (List TxOp)
deriving Repr

/-- The sanitized object built per transaction (part_002 lines 185-190):
exactly the four fields date, amount, token, hash. -/
structure TransactionDto where
  date : String
  amount : String
  token : String
  hash : String
deriving DecidableEq, Repr

/-- The token determination for the first operation (part_002 lines
162-177), with the defaulted value XLM when no branch fires. -/
def opTokenOf (op : TxOp) : String :=
  if op.asset_type = some "native" || op.assetIsAsset then "XLM"
  else if strTruthy op.asset_code then op.asset_code.getD ""
  else if strTruthy op.buying_asset_code then op.buying_asset_code.getD ""
  else if strTruthy op.selling_asset_code then op.selling_asset_code.getD ""
  else "XLM"

/-- The per-transaction mapping body (part_002 lines 145-191): defaults
amount to "0" and token to "XLM", overridden from the first operation when
the operations fetch succeeds and is non-empty. -/
def mapTxEntry (tx : TxRecord) : TransactionDto :=
  match tx.operations with
  | .error _ => { date := tx.created_at, amount := "0", token := "XLM", hash := tx.hash }
  | .ok [] => { date := tx.created_at, amount := "0", token := "XLM", hash := tx.hash }
  | .ok (op :: _) =>
    { date := tx.created_at
      amount := op.amount.getD "0"
      token := opTokenOf op
      hash := tx.hash }

/-- `StellarService.getRecentTransactions` (part_002 lines 130-202).
`horizonFetch` stands for the Horizon query
`transactions().forAccount(publicKey).limit(limit).order(desc).call()`,
yielding the records or throwing.  The outer catch logs the failure and
returns the empty array. -/
def getRecentTransactions (horizonFetch : String → Nat → Except String (List TxRecord))
    (publicKey : String) (limit : Nat) : List TransactionDto :=
  match horizonFetch publicKey limit with
  | .error _ => []
  | .ok records => records.map mapTxEntry

/-- The call with the `limit` parameter left to its source default of 10. -/
def getRecentTransactionsDefault
    (horizonFetch : String → Nat → Except String (List TxRecord))
    (publicKey : String) : List TransactionDto :=
  getRecentTransactions horizonFetch publicKey 10

/-- Escaping of one payload character so that the encoded payload contains
neither the token separator nor the claim separator: the dot, the pipe and
the escape character itself get two-character escape sequences. -/
def esc (c : Char) : List Char :=
  if c = '.' then ['/', 'd']
  else if c = '|' then ['/', 'p']
  else if c = '/' then ['/', 's']
  else [c]

/-- Escape every character of a claim string. -/
def escStr (l : List Char) : List Char := l.flatMap esc

/-- Inverse of the escaping: decode escape sequences back to characters. -/
def unesc : List Char → List Char
  | [] => []
  | [c] => [c]
  | c1 :: c2 :: rest =>
    if c1 = '/' then
      (if c2 = 'd' then '.' else if c2 = 'p' then '|' else '/') :: unesc rest
    else
      c1 :: unesc (c2 :: rest)

/-- Split a character list at the first occurrence of `d`, yielding the
parts before and after it, or `none` when `d` does not occur. -/
def splitAtChar (d : Char) : List Char → Option (List Char × List Char)
  | [] => none
  | c :: rest =>
    if c = d then some ([], rest)
    else
      match splitAtChar d rest with
      | none => none
      | some (a, b) => some (c :: a, b)

/-- Token claims carried by the bearer token: the payload `generateToken`
signs (part_000 line 57) has exactly `sub` and `email`. -/
structure Claims where
  sub : String
  email : String
deriving DecidableEq, Repr

/-- Token verification failure. -/
inductive TokenError
  | invalidToken
deriving DecidableEq, Repr

/-- Encoded payload of the claims: the escaped subject, a pipe, the escaped
email. -/
def encodePayload (sub email : String) : List Char :=
  escStr sub.data ++ '|' :: escStr email.data

/-- Decode a payload back to the claim pair. -/
def decodePayload (p : List Char) : Option (String × String) :=
  match splitAtChar '|' p with
  | none => none
  | some (a, b) => some (⟨unesc a⟩, ⟨unesc b⟩)

/-- Modelled from the spec: `jwtService.sign` is provided by the JWT
library, not by the source excerpt; `generateToken` (part_000 lines 56-58)
passes it the sub and email claims.  Per the spec the issuer
deterministically encodes the claims, signs the encoding with the
process-wide secret, and returns a single opaque string: here the encoded
payload, a dot, and the signature `mac secret payload`. -/
def issueToken (mac : String → String → String) (secret sub email : String) : String :=
  let payload : String := ⟨encodePayload sub email⟩
  payload ++ "." ++ mac secret payload

/-- Modelled from the spec: token verification is provided by the JWT
library; per the spec it recomputes and validates the signature over the
encoded claims and decodes them, failing with `InvalidToken` when the
token is malformed or the signature does not match. -/
def verifyToken (mac : String → String → String) (secret token : String) :
    Except TokenError Claims :=
  match splitAtChar '.' token.data with
  | none => .error .invalidToken
  | some (p, s) =>
    if s = (mac secret ⟨p⟩).data then
      match decodePayload p with
      | none => .error .invalidToken
      | some (sub, email) => .ok { sub := sub, email := email }
    else
      .error .invalidToken

/-- The cost factor `register` would use for a given externally configured
cost factor: the source consults no configuration and always passes the
hard-coded `registerBcryptCost`. -/
def costFactorUsedByRegister (_configuredCost : Nat) : Nat := registerBcryptCost

/-- Concrete stand-in for `bcrypt.hash` used to evaluate the model. -/
def demoHash (plaintext : String) (cost : Nat) : String :=
  "bcrypt" ++ toString cost ++ "$" ++ plaintext

/-- Concrete stand-in for `bcrypt.compare` matching `demoHash` at cost 10. -/
def demoCompare (plaintext hash : String) : Bool := hash = demoHash plaintext 10

/-- Concrete stand-in for `jwtService.sign`. -/
def demoSign (sub email : String) : String := sub ++ "+" ++ email

/-- Concrete stand-in for the class-validator email predicate. -/
def demoIsEmail (_s : String) : Bool := true

/-- Concrete stand-in for the HMAC-SHA256 hex primitive. -/
def demoHmac (secret message : String) : String := secret ++ ":" ++ message

/-- Concrete signature function for the token model: the escaped message,
which contains no dot and is injective. -/
def macDemo (_secret message : String) : String := ⟨escStr message.data⟩

/-- A Horizon client whose call always fails (collaborator unreachable). -/
def demoFailFetch : String → Nat → Except String (List TxRecord) :=
  fun _ _ => .error "connect ECONNREFUSED"

/-- A Horizon client answering an empty transaction page. -/
def demoEmptyFetch : String → Nat → Except String (List TxRecord) :=
  fun _ _ => .ok []

/-- A transaction whose operations list is empty. -/
def demoTx : TxRecord :=
  { created_at := "2026-01-01T00:00:00Z", hash := "abc123", operations := .ok [] }

/-- A Horizon client answering one transaction. -/
def demoTxFetch : String → Nat → Except String (List TxRecord) :=
  fun _ _ => .ok [demoTx]

theorem esc_ne_nil (c : Char) : esc c ≠ [] := by
  simp only [esc]
  split
  · simp
  · split
    · simp
    · split <;> simp

theorem mem_esc_ne {x c : Char} (hx : x ∈ esc c) : x ≠ '.' ∧ x ≠ '|' := by
  simp only [esc] at hx
  split at hx
  · simp only [List.mem_cons, List.not_mem_nil, or_false] at hx
    rcases hx with rfl | rfl <;> exact ⟨by decide, by decide⟩
  · split at hx
    · simp only [List.mem_cons, List.not_mem_nil, or_false] at hx
      rcases hx with rfl | rfl <;> exact ⟨by decide, by decide⟩
    · split at hx
      · simp only [List.mem_cons, List.not_mem_nil, or_false] at hx
        rcases hx with rfl | rfl <;> exact ⟨by decide, by decide⟩
      · simp only [List.mem_cons, List.not_mem_nil, or_false] at hx
        subst hx
        constructor <;> assumption

theorem dot_not_mem_escStr (l : List Char) : '.' ∉ escStr l := by
  intro h
  rw [escStr, List.mem_flatMap] at h
  obtain ⟨c, -, hd⟩ := h
  exact (mem_esc_ne hd).1 rfl

theorem pipe_not_mem_escStr (l : List Char) : '|' ∉ escStr l := by
  intro h
  rw [escStr, List.mem_flatMap] at h
  obtain ⟨c, -, hd⟩ := h
  exact (mem_esc_ne hd).2 rfl

theorem escStr_eq_nil {l : List Char} (h : escStr l = []) : l = [] := by
  cases l with
  | nil => rfl
  | cons c l' =>
    rw [escStr, List.flatMap_cons] at h
    exact absurd (List.append_eq_nil.mp h).1 (esc_ne_nil c)

theorem unesc_escStr_append (l t : List Char) :
    unesc (escStr l ++ t) = l ++ unesc t := by
  induction l generalizing t with
  | nil => simp [escStr]
  | cons c l' ih =>
    have hstep : escStr (c :: l') ++ t = esc c ++ (escStr l' ++ t) := by
      simp [escStr, List.flatMap_cons]
    rw [hstep]
    by_cases h1 : c = '.'
    · subst h1
      have he : esc '.' = ['/', 'd'] := rfl
      rw [he]
      simp only [List.cons_append, List.nil_append, unesc]
      simp [ih]
    · by_cases h2 : c = '|'
      · subst h2
        have he : esc '|' = ['/', 'p'] := rfl
        rw [he]
        simp only [List.cons_append, List.nil_append, unesc]
        simp [ih]
      · by_cases h3 : c = '/'
        · subst h3
          have he : esc '/' = ['/', 's'] := rfl
          rw [he]
          simp only [List.cons_append, List.nil_append, unesc]
          simp [ih]
        · have he : esc c = [c] := by simp [esc, h1, h2, h3]
          rw [he]
          cases hX : escStr l' ++ t with
          | nil =>
            have hl : l' = [] := escStr_eq_nil (List.append_eq_nil.mp hX).1
            have ht : t = [] := (List.append_eq_nil.mp hX).2
            subst hl; subst ht
            simp [unesc]
          | cons d X' =>
            simp only [List.cons_append, List.nil_append, hX]
            simp only [unesc, if_neg h3]
            rw [← hX, ih]

theorem unesc_escStr (l : List Char) : unesc (escStr l) = l := by
  have h := unesc_escStr_append l []
  simp only [List.append_nil, unesc] at h
  exact h

theorem splitAtChar_eq_none {d : Char} {L : List Char} (h : d ∉ L) :
    splitAtChar d L = none := by
  induction L with
  | nil => rfl
  | cons c rest ih =>
    have hc : ¬(c = d) := fun hcd => h (hcd ▸ List.mem_cons_self c rest)
    have ht : d ∉ rest := fun hm => h (List.mem_cons_of_mem c hm)
    simp [splitAtChar, hc, ih ht]

theorem splitAtChar_append {d : Char} {A B : List Char} (h : d ∉ A) :
    splitAtChar d (A ++ d :: B) = some (A, B) := by
  induction A with
  | nil => simp [splitAtChar]
  | cons c A' ih =>
    have hc : ¬(c = d) := fun hcd => h (hcd ▸ List.mem_cons_self c A')
    have hA : d ∉ A' := fun hm => h (List.mem_cons_of_mem c hm)
    simp [splitAtChar, hc, ih hA]

theorem dot_not_mem_encodePayload (sub email : String) :
    '.' ∉ encodePayload sub email := by
  rw [encodePayload]
  intro h
  rcases List.mem_append.mp h with h1 | h1
  · exact dot_not_mem_escStr _ h1
  · rcases List.mem_cons.mp h1 with h2 | h2
    · exact absurd h2 (by decide)
    · exact dot_not_mem_escStr _ h2

theorem decodePayload_encodePayload (sub email : String) :
    decodePayload (encodePayload sub email) = some (sub, email) := by
  rw [decodePayload, encodePayload,
    splitAtChar_append (pipe_not_mem_escStr sub.data)]
  simp only [unesc_escStr]

theorem issueToken_data (mac : String → String → String) (secret sub email : String) :
    (issueToken mac secret sub email).data =
      encodePayload sub email ++
        '.' :: (mac secret ⟨encodePayload sub email⟩).data := by
  rw [issueToken]
  simp only [String.data_append]
  simp [List.append_assoc]

theorem verifyToken_issueToken (mac : String → String → String)
    (secret sub email : String) :
    verifyToken mac secret (issueToken mac secret sub email) = .ok ⟨sub, email⟩ := by
  rw [verifyToken]
  rw [show (issueToken mac secret sub email).data =
      encodePayload sub email ++
        '.' :: (mac secret ⟨encodePayload sub email⟩).data from
    issueToken_data mac secret sub email]
  rw [splitAtChar_append (dot_not_mem_encodePayload sub email)]
  simp [decodePayload_encodePayload]

theorem verifyToken_tamper (mac : String → String → String)
    (secret sub email : String)
    (hInj : ∀ m1 m2, mac secret m1 = mac secret m2 → m1 = m2)
    (hDot : ∀ m, '.' ∉ (mac secret m).data)
    (pre post : List Char) (c c' : Char)
    (hsplit : (issueToken mac secret sub email).data = pre ++ c :: post)
    (hne : c' ≠ c) :
    verifyToken mac secret ⟨pre ++ c' :: post⟩ = .error .invalidToken := by
  have hdata : pre ++ c :: post =
      encodePayload sub email ++
        '.' :: (mac secret ⟨encodePayload sub email⟩).data :=
    hsplit.symm.trans (issueToken_data mac secret sub email)
  have hPdot : '.' ∉ encodePayload sub email := dot_not_mem_encodePayload sub email
  have hSdot : '.' ∉ (mac secret ⟨encodePayload sub email⟩).data := hDot _
  rcases List.append_eq_append_iff.mp hdata with ⟨a1, hPa, hca⟩ | ⟨c2, hprea, hda⟩
  · cases a1 with
    | nil =>
      rw [List.append_nil] at hPa
      rw [List.nil_append] at hca
      injection hca with hc hpost
      have hnodot : '.' ∉ pre ++ c' :: post := by
        intro hmem
        rcases List.mem_append.mp hmem with h1 | h1
        · exact hPdot (by rw [hPa]; exact h1)
        · rcases List.mem_cons.mp h1 with h2 | h2
          · exact hne (h2.symm.trans hc.symm)
          · exact hSdot (by rw [← hpost]; exact h2)
      rw [verifyToken]
      rw [show (⟨pre ++ c' :: post⟩ : String).data = pre ++ c' :: post from rfl]
      rw [splitAtChar_eq_none hnodot]
    | cons e a2 =>
      rw [List.cons_append] at hca
      injection hca with hc hpost
      have hpredot : '.' ∉ pre := fun hm =>
        hPdot (by rw [hPa]; exact List.mem_append_left _ hm)
      have ha2dot : '.' ∉ a2 := fun hm =>
        hPdot (by rw [hPa]; exact List.mem_append_right _ (List.mem_cons_of_mem e hm))
      by_cases hcd : c' = '.'
      · subst hcd
        rw [verifyToken]
        rw [show (⟨pre ++ '.' :: post⟩ : String).data = pre ++ '.' :: post from rfl]
        rw [splitAtChar_append hpredot]
        have hneq : ¬(post = (mac secret ⟨pre⟩).data) := by
          intro heq
          have hmem : '.' ∈ (mac secret ⟨pre⟩).data := by
            rw [← heq, hpost]
            exact List.mem_append_right _ (List.mem_cons_self _ _)
          exact hDot _ hmem
        simp [hneq]
      · rw [verifyToken]
        rw [show (⟨pre ++ c' :: post⟩ : String).data = pre ++ c' :: post from rfl]
        have hshape : pre ++ c' :: post =
            (pre ++ c' :: a2) ++
              '.' :: (mac secret ⟨encodePayload sub email⟩).data := by
          rw [hpost]
          simp [List.append_assoc]
        rw [hshape]
        have hP2dot : '.' ∉ pre ++ c' :: a2 := by
          intro hmem
          rcases List.mem_append.mp hmem with h1 | h1
          · exact hpredot h1
          · rcases List.mem_cons.mp h1 with h2 | h2
            · exact hcd h2.symm
            · exact ha2dot h2
        rw [splitAtChar_append hP2dot]
        have hneq : ¬((mac secret ⟨encodePayload sub email⟩).data =
            (mac secret ⟨pre ++ c' :: a2⟩).data) := by
          intro heq
          have hmac : mac secret ⟨pre ++ c' :: a2⟩ = mac secret ⟨encodePayload sub email⟩ :=
            String.ext heq.symm
          have hstr : (⟨pre ++ c' :: a2⟩ : String) = (⟨encodePayload sub email⟩ : String) :=
            hInj _ _ hmac
          have hlist : pre ++ c' :: a2 = encodePayload sub email :=
            congrArg String.data hstr
          rw [hPa] at hlist
          have hcons := List.append_cancel_left hlist
          injection hcons with hce
          exact hne (hce.trans hc.symm)
        simp [hneq]
  · cases c2 with
    | nil =>
      rw [List.append_nil] at hprea
      rw [List.nil_append] at hda
      injection hda with hc hpost
      have hnodot : '.' ∉ pre ++ c' :: post := by
        intro hmem
        rcases List.mem_append.mp hmem with h1 | h1
        · exact hPdot (by rw [← hprea]; exact h1)
        · rcases List.mem_cons.mp h1 with h2 | h2
          · exact hne (h2.symm.trans hc)
          · exact hSdot (by rw [hpost]; exact h2)
      rw [verifyToken]
      rw [show (⟨pre ++ c' :: post⟩ : String).data = pre ++ c' :: post from rfl]
      rw [splitAtChar_eq_none hnodot]
    | cons e c3 =>
      rw [List.cons_append] at hda
      injection hda with he hS
      have hshape : pre ++ c' :: post =
          encodePayload sub email ++ '.' :: (c3 ++ c' :: post) := by
        rw [hprea, ← he]
        simp [List.append_assoc]
      rw [verifyToken]
      rw [show (⟨pre ++ c' :: post⟩ : String).data = pre ++ c' :: post from rfl]
      rw [hshape, splitAtChar_append hPdot]
      have hneq : ¬(c3 ++ c' :: post = (mac secret ⟨encodePayload sub email⟩).data) := by
        intro heq
        rw [hS] at heq
        have hcons := List.append_cancel_left heq
        injection hcons with hcc
        exact hne hcc
      simp [hneq]

theorem macDemo_inj (secret : String) :
    ∀ m1 m2, macDemo secret m1 = macDemo secret m2 → m1 = m2 := by
  intro m1 m2 h
  have hd : escStr m1.data = escStr m2.data := congrArg String.data h
  have hdata : m1.data = m2.data := by
    have h1 := unesc_escStr m1.data
    have h2 := unesc_escStr m2.data
    rw [← h1, ← h2, hd]
  exact String.ext hdata

theorem macDemo_dotfree (secret : String) :
    ∀ m, '.' ∉ (macDemo secret m).data :=
  fun m => dot_not_mem_escStr m.data

/-- C6: for every id and email, verifying the token produced by
`issue(id, email)` under the same signing secret succeeds and recovers
`sub = id` and `email = email`; tampering any byte of the token — replacing
the character at any position by a different one — makes verification fail
with `InvalidToken`.  The signature primitive is assumed collision-free
(injective) and dot-free, the contract of the HMAC the spec prescribes. -/
theorem C6_token_roundtrip_and_tamper (mac : String → String → String)
    (secret sub email : String)
    (hInj : ∀ m1 m2, mac secret m1 = mac secret m2 → m1 = m2)
    (hDot : ∀ m, '.' ∉ (mac secret m).data) :
    verifyToken mac secret (issueToken mac secret sub email) =
      .ok { sub := sub, email := email } ∧
    ∀ pre c c' post, (issueToken mac secret sub email).data = pre ++ c :: post →
      c' ≠ c →
      verifyToken mac secret ⟨pre ++ c' :: post⟩ = .error .invalidToken :=
  ⟨verifyToken_issueToken mac secret sub email,
   fun pre c c' post h1 h2 =>
     verifyToken_tamper mac secret sub email hInj hDot pre post c c' h1 h2⟩

/-- Witness for C6 at a concrete signature function, secret, id and email. -/
theorem C6_witness :
    verifyToken macDemo "sec" (issueToken macDemo "sec" "u1" "a@x.com") =
      .ok { sub := "u1", email := "a@x.com" } :=
  (C6_token_roundtrip_and_tamper macDemo "sec" "u1" "a@x.com"
    (macDemo_inj "sec") (macDemo_dotfree "sec")).1

theorem canActivate_shape (rs : Option (List Role)) (u : Option ReqUser) :
    canActivate rs u = .ok true ∨ ∃ e, canActivate rs u = .error e := by
  cases rs with
  | none => exact Or.inl rfl
  | some l =>
    by_cases hl : l.length = 0
    · exact Or.inl (by simp [canActivate, hl])
    · cases u with
      | none =>
        exact Or.inr ⟨⟨"No authenticated user found on request."⟩,
          by simp [canActivate, hl]⟩
      | some v =>
        by_cases hr : l.any (fun r => v.role = r)
        · exact Or.inl (by simp [canActivate, hl, hr])
        · exact Or.inr ⟨⟨"Access denied. Required role(s): " ++ joinRoles l ++
            ". Your role: " ++ v.role.asString ++ "."⟩,
            by simp [canActivate, hl, hr]⟩

theorem canActivate_ok_iff (rs : Option (List Role)) (u : Option ReqUser) :
    canActivate rs u = .ok true ↔ allowCond rs u := by
  cases rs with
  | none => simp [canActivate, allowCond]
  | some l =>
    by_cases hl : l.length = 0
    · have hnil : l = [] := List.length_eq_zero.mp hl
      subst hnil
      simp [canActivate, allowCond]
    · have hlne : l ≠ [] := fun h => hl (by simp [h])
      cases u with
      | none =>
        simp [canActivate, hl, allowCond, hlne]
      | some v =>
        by_cases hr : l.any (fun r => v.role = r)
        · have hmem : v.role ∈ l := by
            rcases List.any_eq_true.mp hr with ⟨x, hx, hpx⟩
            have : v.role = x := by simpa using hpx
            rw [this]; exact hx
          constructor
          · intro _
            exact Or.inr (Or.inr ⟨l, v, rfl, rfl, hmem⟩)
          · intro _
            simp [canActivate, hl, hr]
        · have hnmem : v.role ∉ l := by
            intro hmem
            exact hr (List.any_eq_true.mpr ⟨v.role, hmem, by simp⟩)
          simp [canActivate, hl, hr, allowCond, hlne, hnmem]

/-- C2: the Role Authorization Guard allows exactly when the route declares
no required roles (absent or empty) or the attached identity's role is a
member of the declared set; in every other case, including the case of no
attached identity, it fails with a `ForbiddenException`; and the concrete
role matrix holds. -/
theorem C2_roles_guard_decision (rs : Option (List Role)) (u : Option ReqUser) :
    (canActivate rs u = .ok true ↔ allowCond rs u) ∧
    ((∃ e, canActivate rs u = .error e) ↔ ¬ allowCond rs u) ∧
    canActivate (some [.ADMIN]) (some ⟨.ADMIN⟩) = .ok true ∧
    (∃ e, canActivate (some [.ADMIN]) (some ⟨.USER⟩) = .error e) ∧
    (∃ e, canActivate (some [.ADMIN]) none = .error e) ∧
    canActivate (some [.USER, .ADMIN]) (some ⟨.USER⟩) = .ok true ∧
    canActivate (some [.USER, .ADMIN]) (some ⟨.ADMIN⟩) = .ok true ∧
    canActivate none (some ⟨.USER⟩) = .ok true ∧
    canActivate none none = .ok true ∧
    canActivate (some []) none = .ok true := by
  refine ⟨canActivate_ok_iff rs u, ?_, rfl, ⟨_, rfl⟩, ⟨_, rfl⟩, rfl, rfl, rfl, rfl, rfl⟩
  constructor
  · rintro ⟨e, he⟩ hallow
    have hok := (canActivate_ok_iff rs u).mpr hallow
    rw [hok] at he
    exact Except.noConfusion he
  · intro hnallow
    rcases canActivate_shape rs u with hok | herr
    · exact absurd ((canActivate_ok_iff rs u).mp hok) hnallow
    · exact herr

/-- C1: evaluation of `register` at the spec's end-to-end input on an empty
store.  The call succeeds, but the value returned to the caller carries the
stored password hash: the `user` object from `userService.create` is
returned unstripped, so the identity in the response does contain the hash
field, contradicting the claimed invariant. -/
theorem C1_register_returns_stored_hash :
    (register demoHash demoSign [] { email := "a@x.com", password := "password123", name := none }).1 =
      .ok { user := { id := "u0", email := "a@x.com",
                      password := some (demoHash "password123" 10),
                      name := none, role := .USER },
            accessToken := demoSign "u0" "a@x.com" } ∧
    ∀ r, (register demoHash demoSign []
        { email := "a@x.com", password := "password123", name := none }).1 = .ok r →
      r.user.password ≠ none := by
  constructor
  · rfl
  · intro r hr
    have : r = { user := { id := "u0", email := "a@x.com",
                           password := some (demoHash "password123" 10),
                           name := none, role := .USER },
                 accessToken := demoSign "u0" "a@x.com" } := by
      have h0 : (register demoHash demoSign []
          { email := "a@x.com", password := "password123", name := none }).1 =
          .ok r := hr
      rw [show (register demoHash demoSign []
          { email := "a@x.com", password := "password123", name := none }).1 =
          .ok { user := { id := "u0", email := "a@x.com",
                          password := some (demoHash "password123" 10),
                          name := none, role := .USER },
                accessToken := demoSign "u0" "a@x.com" } from rfl] at h0
      injection h0 with h1
      exact h1.symm
    rw [this]
    simp

/-- C3: `login` fails with the one `UnauthorizedException` carrying the
message `Invalid credentials` — the same error value — in all three failure
cases: no record for the email, a record whose stored hash is absent (or
empty, hence falsy), and a record whose hash verification fails; on success
it returns the issued token. -/
theorem C3_login_indistinguishable_failures
    (bcryptCompare : String → String → Bool)
    (signToken : String → String → String)
    (store : Store) (email pass : String)
    (h : findByEmail store email = none ∨
      (∃ u, findByEmail store email = some u ∧ hashTruthy u.password = false) ∨
      (∃ u, findByEmail store email = some u ∧ hashTruthy u.password = true ∧
        bcryptCompare pass (u.password.getD "") = false)) :
    login bcryptCompare signToken store { email := email, password := pass } =
      .error (.unauthorized "Invalid credentials") ∧
    ∀ u, validateUser bcryptCompare store email pass = some u →
      login bcryptCompare signToken store { email := email, password := pass } =
        .ok { accessToken := signToken u.id u.email } := by
  constructor
  · rcases h with h1 | ⟨u, h1, h2⟩ | ⟨u, h1, h2, h3⟩
    · simp [login, validateUser, h1]
    · simp [login, validateUser, h1, h2]
    · simp [login, validateUser, h1, h2, h3]
  · intro u hu
    simp [login, hu]

/-- Witness for C3: empty store, so the lookup fails and login answers the
uninformative `Invalid credentials` error. -/
theorem C3_witness :
    login demoCompare demoSign [] { email := "a@x.com", password := "pw" } =
      .error (.unauthorized "Invalid credentials") :=
  (C3_login_indistinguishable_failures demoCompare demoSign [] "a@x.com" "pw"
    (Or.inl rfl)).1

/-- C5: `register` fails with the `DuplicateUser` conflict exactly when the
store already holds a record whose email is literally equal to the request
email (exact match, no normalization), and in that case the returned pair
carries the unchanged store and no token. -/
theorem C5_register_duplicate_iff (bcryptHash : String → Nat → String)
    (signToken : String → String → String) (store : Store) (dto : RegisterDto) :
    (∃ u ∈ store, u.email = dto.email) ↔
      register bcryptHash signToken store dto =
        (.error (.conflict "User already exists"), store) := by
  constructor
  · rintro ⟨u, hu, he⟩
    have hsome : (findByEmail store dto.email).isSome := by
      rw [findByEmail]
      exact List.find?_isSome.mpr ⟨u, hu, by simp [he]⟩
    obtain ⟨v, hv⟩ := Option.isSome_iff_exists.mp hsome
    simp [register, hv]
  · intro h
    cases hfind : findByEmail store dto.email with
    | none =>
      exfalso
      rw [register] at h
      rw [hfind] at h
      simp [createUser] at h
    | some u =>
      refine ⟨u, List.mem_of_find?_eq_some hfind, ?_⟩
      have := List.find?_some hfind
      simpa using this

/-- C4: a POST to the webhook endpoint with no signature header fails
unauthorized (missing signature, status 401); with a signature different
from the hex HMAC-SHA256 of the exact raw body under the webhook secret it
fails unauthorized (invalid signature, status 401, never 200); with the
matching signature it is accepted with status 200 and the fixed
acknowledgment. -/
theorem C4_webhook_signature (hmac : String → String → String)
    (secret rawBody : String) :
    handleStellarWebhook hmac secret rawBody none = .unauthorized "missing signature" ∧
    (handleStellarWebhook hmac secret rawBody none).statusCode = 401 ∧
    (∀ sig, sig ≠ hmac secret rawBody →
      handleStellarWebhook hmac secret rawBody (some sig) =
        .unauthorized "invalid signature" ∧
      (handleStellarWebhook hmac secret rawBody (some sig)).statusCode = 401 ∧
      (handleStellarWebhook hmac secret rawBody (some sig)).statusCode ≠ 200) ∧
    handleStellarWebhook hmac secret rawBody (some (hmac secret rawBody)) =
      .accepted { status := "success" } ∧
    (handleStellarWebhook hmac secret rawBody
      (some (hmac secret rawBody))).statusCode = 200 := by
  refine ⟨rfl, rfl, ?_, ?_, ?_⟩
  · intro sig hs
    have hcase : handleStellarWebhook hmac secret rawBody (some sig) =
        .unauthorized "invalid signature" := by
      simp [handleStellarWebhook, hs]
    refine ⟨hcase, ?_, ?_⟩
    · rw [hcase]
      rfl
    · rw [hcase]
      simp [WebhookResponse.statusCode]
  · simp [handleStellarWebhook]
  · simp [handleStellarWebhook, WebhookResponse.statusCode]

/-- Witness for C4: a wrong signature is rejected as invalid. -/
theorem C4_witness :
    handleStellarWebhook demoHmac "sec" "body" (some "wrong") =
      .unauthorized "invalid signature" :=
  ((C4_webhook_signature demoHmac "sec" "body").2.2.1 "wrong" (by decide)).1

/-- C7 counterexample: with the Horizon collaborator unreachable,
`getRecentTransactions` answers the successful empty list — the very same
value a genuinely empty account produces — instead of propagating the
failure. -/
theorem C7_counterexample :
    getRecentTransactions demoFailFetch "GABC" 10 = [] ∧
    getRecentTransactions demoEmptyFetch "GABC" 10 = [] :=
  ⟨rfl, rfl⟩

/-- C7 (amended): any failure of the Horizon fetch is swallowed by the
outer catch of `getRecentTransactions`, which logs and returns the empty
array rather than propagating. -/
theorem C7_horizon_failure_swallowed
    (hfetch : String → Nat → Except String (List TxRecord))
    (publicKey : String) (limit : Nat) (e : String)
    (h : hfetch publicKey limit = .error e) :
    getRecentTransactions hfetch publicKey limit = [] := by
  simp [getRecentTransactions, h]

/-- Witness for the amended C7 at a concrete failing client. -/
theorem C7_witness : getRecentTransactions demoFailFetch "GABC" 10 = [] :=
  C7_horizon_failure_swallowed demoFailFetch "GABC" 10 "connect ECONNREFUSED" rfl

/-- C8 counterexample: configure a cost factor of 12 — the hash call in
`register` still runs at the hard-coded cost 10. -/
theorem C8_counterexample :
    costFactorUsedByRegister 12 = 10 ∧ costFactorUsedByRegister 12 ≠ 12 := by
  decide

/-- C8 (amended): whatever cost factor is provisioned, `register` hashes
the password with the constant cost 10 embedded in the source; the
configuration value is never consulted. -/
theorem C8_register_uses_constant_cost (bcryptHash : String → Nat → String)
    (signToken : String → String → String) (store : Store) (dto : RegisterDto)
    (configuredCost : Nat)
    (h : findByEmail store dto.email = none) :
    costFactorUsedByRegister configuredCost = 10 ∧
    ∃ r s, register bcryptHash signToken store dto = (.ok r, s) ∧
      r.user.password = some (bcryptHash dto.password 10) := by
  refine ⟨rfl, ?_⟩
  refine ⟨{ user := { id := "u" ++ toString store.length, email := dto.email,
                      password := some (bcryptHash dto.password registerBcryptCost),
                      name := dto.name, role := .USER },
            accessToken := signToken ("u" ++ toString store.length) dto.email },
          store ++ [{ id := "u" ++ toString store.length, email := dto.email,
                      password := some (bcryptHash dto.password registerBcryptCost),
                      name := dto.name, role := .USER }], ?_, rfl⟩
  simp [register, h, createUser]

/-- Witness for the amended C8 at concrete collaborators and configured
cost 12. -/
theorem C8_witness :
    costFactorUsedByRegister 12 = 10 ∧
    ∃ r s, register demoHash demoSign []
        { email := "a@x.com", password := "password123", name := none } = (.ok r, s) ∧
      r.user.password = some (demoHash "password123" 10) :=
  C8_register_uses_constant_cost demoHash demoSign []
    { email := "a@x.com", password := "password123", name := none } 12 rfl

/-- C9: a registration request whose password is shorter than 8 or longer
than 32 characters, or whose email fails the email predicate, is rejected
by DTO validation with the store untouched — the credential service never
runs. -/
theorem C9_dto_validation_rejects (isEmail : String → Bool)
    (bcryptHash : String → Nat → String) (signToken : String → String → String)
    (store : Store) (email password : String) (name : Option String)
    (h : password.length < 8 ∨ 32 < password.length ∨ isEmail email = false) :
    registerEndpoint isEmail bcryptHash signToken store email password name =
      (.validationFailed, store) := by
  have hv : validRegisterInput isEmail email password name = false := by
    rcases h with h1 | h1 | h1
    · have h2 : ¬(8 ≤ password.length) := Nat.not_le.mpr h1
      simp [validRegisterInput, h2]
    · have h2 : ¬(password.length ≤ 32) := Nat.not_le.mpr h1
      simp [validRegisterInput, h2]
    · simp [validRegisterInput, h1]
  simp [registerEndpoint, hv]

/-- Witness for C9: a 5-character password is rejected before the service
runs. -/
theorem C9_witness :
    registerEndpoint demoIsEmail demoHash demoSign [] "a@x.com" "short" none =
      (.validationFailed, []) :=
  C9_dto_validation_rejects demoIsEmail demoHash demoSign [] "a@x.com" "short" none
    (Or.inl (by decide))

/-- C10: the mapped result has at most `limit` entries (the Horizon query
is bounded by `limit`, default 10); each entry is a `TransactionDto` —
exactly the fields date, amount, token, hash; and an entry defaults to
amount "0" and token "XLM" when the operations fetch fails, when the
operations list is empty, or when the first operation carries no
amount/asset information. -/
theorem C10_recent_transactions
    (hfetch : String → Nat → Except String (List TxRecord))
    (publicKey : String) (limit : Nat)
    (hlim : ∀ records, hfetch publicKey limit = .ok records →
      records.length ≤ limit) :
    (getRecentTransactions hfetch publicKey limit).length ≤ limit ∧
    getRecentTransactionsDefault hfetch publicKey =
      getRecentTransactions hfetch publicKey 10 ∧
    (∀ tx e, tx.operations = .error e →
      mapTxEntry tx = { date := tx.created_at, amount := "0", token := "XLM",
                        hash := tx.hash }) ∧
    (∀ tx, tx.operations = .ok [] →
      mapTxEntry tx = { date := tx.created_at, amount := "0", token := "XLM",
                        hash := tx.hash }) ∧
    (∀ tx op ops, tx.operations = .ok (op :: ops) →
      op.amount = none → op.asset_type = none → op.assetIsAsset = false →
      op.asset_code = none → op.buying_asset_code = none →
      op.selling_asset_code = none →
      mapTxEntry tx = { date := tx.created_at, amount := "0", token := "XLM",
                        hash := tx.hash }) ∧
    (∀ records, hfetch publicKey limit = .ok records →
      getRecentTransactions hfetch publicKey limit = records.map mapTxEntry) := by
  refine ⟨?_, rfl, ?_, ?_, ?_, ?_⟩
  · cases hres : hfetch publicKey limit with
    | error e => simp [getRecentTransactions, hres]
    | ok records =>
      have hlen := hlim records hres
      simpa [getRecentTransactions, hres] using hlen
  · intro tx e he
    simp [mapTxEntry, he]
  · intro tx he
    simp [mapTxEntry, he]
  · intro tx op ops hops h1 h2 h3 h4 h5 h6
    simp [mapTxEntry, hops, opTokenOf, strTruthy, h1, h2, h3, h4, h5, h6]
  · intro records hres
    simp [getRecentTransactions, hres]

/-- Witness for C10 at a concrete one-transaction client. -/
theorem C10_witness :
    (getRecentTransactions demoTxFetch "GX" 10).length ≤ 10 ∧
    mapTxEntry demoTx = { date := "2026-01-01T00:00:00Z", amount := "0",
                          token := "XLM", hash := "abc123" } := by
  have h := C10_recent_transactions demoTxFetch "GX" 10
    (fun records hr => by
      have h3 : (Except.ok [demoTx] : Except String (List TxRecord)) =
          .ok records := hr
      have h2 : ([demoTx] : List TxRecord) = records := by injection h3
      rw [← h2]
      decide)
  exact ⟨h.1, h.2.2.2.1 demoTx rfl⟩

end Nestera
